import Mathlib

/-!
Shallow embedding of `jquery.lace.js`, a column-based masonry layout engine.

The DOM state relevant to the layout core is modelled as a list of columns
(each a list of items in document order) together with the plugin's cached
counters.  Pixel heights are natural numbers; a column's rendered height is
the sum of its items' heights (items stack vertically inside a column).
Items carry an opaque identity `id`, the `data-sort-index` attribute
`sortIndex`, and their measured `height`.
-/

/-- A grid item: `id` is the opaque content identity, `sortIndex` models the
`data-sort-index` attribute, `height` the measured pixel height. -/
structure Item where
  id : Nat
  sortIndex : Nat
  height : Nat
deriving DecidableEq, Repr

/-- The `this.cache` object of the plugin: cached column count,
`lastColAppended` (null modelled as `none`) and the monotonic `itemIndex`. -/
structure Cache where
  cols : Nat
  lastColAppended : Option Nat
  itemIndex : Nat
deriving DecidableEq, Repr

/-- The plugin instance state: the columns with their items (position `k`
holds the column whose `data-sort-index` is `k+1`), `this.settings.cols`,
and `this.cache`. -/
structure LaceState where
  cols : List (List Item)
  settingsCols : Nat
  cache : Cache
deriving DecidableEq, Repr

/-- JavaScript truthiness of `this.cache.lastColAppended`
(`null` and `0` are falsy). -/
def jsTruthy : Option Nat → Bool
  | none => false
  | some v => v != 0

/-- Rendered height of a column: the sum of its items' heights. -/
def colHeight (c : List Item) : Nat := (c.map Item.height).sum

/-- Total number of items currently placed in columns
(`this.$el.find(selector).length`). -/
def totalItems (cols : List (List Item)) : Nat := (cols.map List.length).sum

/-- `$item.appendTo($col)` for the column with (1-based) `data-sort-index`
`num`.  If no column has that index the jQuery collection is empty and the
item is simply left detached (dropped). -/
def appendToCol : List (List Item) → Nat → Item → List (List Item)
  | [], _, _ => []
  | c :: cs, 0, _ => c :: cs
  | c :: cs, 1, it => (c ++ [it]) :: cs
  | c :: cs, n+2, it => c :: appendToCol cs (n+1) it

/-- `_moveItemsIntoCols`: iterate over the batch with jQuery's index `i`;
for each item set `data-sort-index` to `cache.itemIndex`, pick the target
column (`cache.lastColAppended % cols + 1` when `lastColAppended` is truthy,
else `i % cols + 1`), record it in `cache.lastColAppended`, append the item
to that column, and bump `cache.itemIndex`.  The second component returns
the sequence of target column indices, for stating layout properties.

`targetCol` is the column choice for the item at batch position `i`:
`cache.lastColAppended % cols + 1` when `lastColAppended` is truthy, else
`i % cols + 1`. -/
def targetCol (s : LaceState) (i : Nat) : Nat :=
  if jsTruthy s.cache.lastColAppended then
    s.cache.lastColAppended.getD 0 % s.settingsCols + 1
  else
    i % s.settingsCols + 1

/-- The per-item body of `_moveItemsIntoCols`: stamp
`data-sort-index = cache.itemIndex` on the item, append it to the target
column, record the target in `cache.lastColAppended` and bump
`cache.itemIndex`. -/
def placeItem (s : LaceState) (i : Nat) (it : Item) : LaceState :=
  { s with
    cols := appendToCol s.cols (targetCol s i) { it with sortIndex := s.cache.itemIndex }
    cache := { s.cache with
                lastColAppended := some (targetCol s i)
                itemIndex := s.cache.itemIndex + 1 } }

def moveItemsAux : LaceState → Nat → List Item → LaceState × List Nat
  | s, _, [] => (s, [])
  | s, i, it :: rest =>
    let r := moveItemsAux (placeItem s i it) (i + 1) rest
    (r.1, targetCol s i :: r.2)

/-- `_moveItemsIntoCols($items)` as a state transformer. -/
def moveItemsIntoCols (s : LaceState) (items : List Item) : LaceState :=
  (moveItemsAux s 0 items).1

/-- The first `$.each(heights, ...)` scan of `_getColumnHeights`: running
minimum (`lastHeight`) together with the 1-based column of the last strict
decrease (`output.shortestCol`).  `i` is the current 0-based position. -/
def scanMinAux : Nat → Option (Nat × Nat) → List Nat → Option (Nat × Nat)
  | _, acc, [] => acc
  | i, none, v :: rest => scanMinAux (i + 1) (some (v, i + 1)) rest
  | i, some (lh, c), v :: rest =>
    if v < lh then scanMinAux (i + 1) (some (v, i + 1)) rest
    else scanMinAux (i + 1) (some (lh, c)) rest

/-- The second `$.each(heights, ...)` scan of `_getColumnHeights`: running
maximum with the 1-based column of the last strict increase. -/
def scanMaxAux : Nat → Option (Nat × Nat) → List Nat → Option (Nat × Nat)
  | _, acc, [] => acc
  | i, none, v :: rest => scanMaxAux (i + 1) (some (v, i + 1)) rest
  | i, some (lh, c), v :: rest =>
    if lh < v then scanMaxAux (i + 1) (some (v, i + 1)) rest
    else scanMaxAux (i + 1) (some (lh, c)) rest

/-- Result object of `_getColumnHeights` (columns referenced by their
1-based `data-sort-index`). -/
structure ColHeightsResult where
  highestCol : Nat
  highestValue : Nat
  shortestCol : Nat
  shortestValue : Nat
deriving DecidableEq, Repr

/-- `_getColumnHeights`: returns `none` when there are no columns
(the JS function returns `undefined`); otherwise scans the height list
left to right with the two strict-comparison passes. -/
def getColumnHeightsRes (cols : List (List Item)) : Option ColHeightsResult :=
  if cols.length = 0 then none
  else
    let heights := cols.map colHeight
    match scanMinAux 0 none heights, scanMaxAux 0 none heights with
    | some (sv, sc), some (hv, hc) =>
      some { highestCol := hc, highestValue := hv,
             shortestCol := sc, shortestValue := sv }
    | _, _ => none

/-- `Math.abs($cols.highestValue - $cols.shortestValue)` (0 when there are
no columns). -/
def gapNat (cols : List (List Item)) : Nat :=
  match getColumnHeightsRes cols with
  | none => 0
  | some r => (((r.highestValue : Int) - (r.shortestValue : Int))).natAbs

/-- The column with 1-based index `num` (empty jQuery collection modelled
as `[]` when out of range). -/
def colAt (cols : List (List Item)) (num : Nat) : List Item :=
  cols.getD (num - 1) []

/-- Replace the column with 1-based index `num`. -/
def setColAt (cols : List (List Item)) (num : Nat) (c : List Item) :
    List (List Item) :=
  cols.set (num - 1) c

/-- One iteration of the `evenBottom` while-loop: recompute the column
heights, take the last item of the highest column and append it to the
shortest column; if the highest column has no items the iteration does
nothing. -/
def evenStep (cols : List (List Item)) : List (List Item) :=
  match getColumnHeightsRes cols with
  | none => cols
  | some r =>
    let hc := colAt cols r.highestCol
    match hc.getLast? with
    | none => cols
    | some it =>
      let cols₁ := setColAt cols r.highestCol hc.dropLast
      let sc := colAt cols₁ r.shortestCol
      setColAt cols₁ r.shortestCol (sc ++ [it])

/-- The `evenBottom` while-loop run `n` times. -/
def evenLoop : Nat → List (List Item) → List (List Item)
  | 0, cols => cols
  | n + 1, cols => evenLoop n (evenStep cols)

/-- `evenBottom`: no-op when there are no items, when the height gap is at
most 500, or when there is exactly one item; otherwise runs the move loop
`Math.ceil(cache.cols / 2)` times. -/
def evenBottom (s : LaceState) : LaceState :=
  if totalItems s.cols = 0 then s
  else
    match getColumnHeightsRes s.cols with
    | none => s
    | some r =>
      if (((r.highestValue : Int) - (r.shortestValue : Int))).natAbs ≤ 500 then s
      else if totalItems s.cols = 1 then s
      else { s with cols := evenLoop ((s.cache.cols + 1) / 2) s.cols }

/-- The comparator of `_sortItemsByIndex` as an order on items:
ascending `data-sort-index`. -/
def itemLe (a b : Item) : Prop := a.sortIndex ≤ b.sortIndex

/-- Strict version of `itemLe`, used to state uniqueness of sorted orders. -/
def itemLt (a b : Item) : Prop := a.sortIndex < b.sortIndex

instance : DecidableRel itemLe := fun a b => Nat.decLe a.sortIndex b.sortIndex

instance : DecidableRel itemLt := fun a b => Nat.decLt a.sortIndex b.sortIndex

instance : IsTotal Item itemLe := ⟨fun a b => Nat.le_total a.sortIndex b.sortIndex⟩

instance : IsTrans Item itemLe := ⟨fun _ _ _ => Nat.le_trans⟩

instance : IsAntisymm Item itemLt :=
  ⟨fun a _ h1 h2 => absurd (Nat.lt_trans h1 h2) (Nat.lt_irrefl a.sortIndex)⟩

/-- `_sortItemsByIndex`: stable sort of the items by ascending
`data-sort-index` (JavaScript's stable `Array.prototype.sort` with the
three-way comparator). -/
def sortItemsByIndex (l : List Item) : List Item :=
  List.insertionSort itemLe l

/-- `_reLayout`: detach every item (document order = concatenation of the
columns), drop the columns, recreate `settings.cols` empty columns, sort the
detached items by `data-sort-index`, reset `cache.itemIndex` to `0` and
`cache.lastColAppended` to `null`, and move the sorted items back in. -/
def reLayout (s : LaceState) : LaceState :=
  let items := s.cols.flatten
  let sorted := sortItemsByIndex items
  let s' : LaceState :=
    { s with
      cols := List.replicate s.settingsCols []
      cache := { s.cache with itemIndex := 0, lastColAppended := none } }
  moveItemsIntoCols s' sorted

/-- `append($items)`: no-op on an empty collection, otherwise run
`evenBottom` first and then `_moveItemsIntoCols`. -/
def append (s : LaceState) (items : List Item) : LaceState :=
  if items.length = 0 then s
  else moveItemsIntoCols (evenBottom s) items

/-- The target columns chosen by `append` for each item of the batch
(empty batch: no targets). -/
def appendTargets (s : LaceState) (items : List Item) : List Nat :=
  if items.length = 0 then []
  else (moveItemsAux (evenBottom s) 0 items).2

/-- `removeAll`: remove every child of the container except the clearer
(this removes every column together with its items) and recreate
`settings.cols` empty columns.  The cache is left untouched. -/
def removeAll (s : LaceState) : LaceState :=
  { s with cols := List.replicate s.settingsCols [] }

/-- `_getColumnCount`: effective width is the measured container (or
reference) width minus `windowPadding`; divide by `colWidth + colPadding`
rounding down (`Math.floor`, i.e. floor division), and never go below
`minCols`. -/
def getColumnCount (containerWidth colWidth colPadding windowPadding
    minCols : Int) : Int :=
  let elWidth := containerWidth - windowPadding
  let colW := colWidth + colPadding
  let answer := Int.fdiv elWidth colW
  if answer < minCols then minCols else answer

/-- User-supplied options for the three required fields.  The outer
`Option` is "was the key passed at all"; for `selector` and `colPadding`
the inner `Option` distinguishes an explicit `null` from a real value. -/
structure LaceOptions where
  selector : Option (Option String)
  colWidth : Option Int
  colPadding : Option (Option Int)
deriving DecidableEq, Repr

/-- The relevant fields of `$.extend({}, defaults, options)`. -/
structure MergedSettings where
  selector : Option String
  colWidth : Int
  colPadding : Option Int
deriving DecidableEq, Repr

/-- `$.extend({}, defaults, options)` for the three required fields:
defaults are `selector: null`, `colWidth: 0`, `colPadding: 0`. -/
def mergeOptions (o : LaceOptions) : MergedSettings :=
  { selector := match o.selector with | none => none | some v => v
    colWidth := match o.colWidth with | none => 0 | some v => v
    colPadding := match o.colPadding with | none => some 0 | some v => v }

/-- The configuration errors reported by the `Lace` constructor, in order:
`selector == null`, `colWidth == 0`, `colPadding == null` (JavaScript loose
equality: `0 == null` is false). -/
def configErrors (st : MergedSettings) : List String :=
  (if st.selector = none then ["Missing \"selector\" param"] else []) ++
  (if st.colWidth = 0 then ["Missing \"colWidth\" param"] else []) ++
  (if st.colPadding = none then ["Missing \"colPadding\" param"] else [])

/-- The `Lace` constructor: merge the options, report the configuration
errors, and proceed with construction regardless (the merged settings are
always produced and `_init` always runs). -/
def laceInit (o : LaceOptions) : List String × MergedSettings :=
  (configErrors (mergeOptions o), mergeOptions o)

/-- Renumbering a batch: the item at position `k` receives
`data-sort-index` `a + k`.  This is what the `attr('data-sort-index', ...)`
line of `_moveItemsIntoCols` does to a batch when `cache.itemIndex` starts
at `a`; it is used to state what a relayout does to the indices. -/
def renumber : Nat → List Item → List Item
  | _, [] => []
  | a, it :: rest => { it with sortIndex := a } :: renumber (a + 1) rest

/-! ### Generic list helpers -/

theorem getD_eq_get {α : Type} (l : List α) (d : α) (k : Nat) (h : k < l.length) :
    l.getD k d = l.get ⟨k, h⟩ := by
  rw [List.getD_eq_getElem l d h]
  rfl

theorem getD_mem {α : Type} {l : List α} {k : Nat} (d : α) (h : k < l.length) :
    l.getD k d ∈ l := by
  rw [List.getD_eq_getElem l d h]
  exact List.getElem_mem h

theorem forall_getD_to_mem {l : List Nat} {P : Nat → Prop}
    (h : ∀ k, k < l.length → P (l.getD k 0)) : ∀ v ∈ l, P v := by
  intro v hv
  obtain ⟨k, hk, rfl⟩ := List.mem_iff_getElem.mp hv
  have := h k hk
  rwa [List.getD_eq_getElem l 0 hk] at this

theorem getD_set_self {α : Type} (l : List α) (k : Nat) (v d : α) (h : k < l.length) :
    (l.set k v).getD k d = v := by
  rw [getD_eq_get _ d k (by simpa using h)]
  simp [List.get_eq_getElem, List.getElem_set_self]

theorem getD_set_ne {α : Type} (l : List α) (k k' : Nat) (v d : α) (h : k ≠ k') :
    (l.set k v).getD k' d = l.getD k' d := by
  induction l generalizing k k' with
  | nil => simp [List.set]
  | cons a t ih =>
    cases k with
    | zero =>
      cases k' with
      | zero => exact absurd rfl h
      | succ m => simp [List.set]
    | succ n =>
      cases k' with
      | zero => simp [List.set]
      | succ m => simpa [List.set] using ih n m (by omega)

theorem getD_map_colHeight (cols : List (List Item)) (k : Nat) :
    (cols.map colHeight).getD k 0 = colHeight (cols.getD k []) := by
  induction cols generalizing k with
  | nil => simp [colHeight]
  | cons c cs ih =>
    cases k with
    | zero => simp
    | succ n => simpa using ih n

theorem getD_replicate_nil (n k : Nat) :
    (List.replicate n ([] : List Item)).getD k [] = [] := by
  induction n generalizing k with
  | zero => simp
  | succ m ih =>
    cases k with
    | zero => simp
    | succ j =>
      simp only [List.replicate, List.getD_cons_succ]
      exact ih j

theorem flatten_replicate_nil (n : Nat) :
    (List.replicate n ([] : List Item)).flatten = [] := by
  induction n with
  | zero => rfl
  | succ m ih =>
    simp only [List.replicate, List.flatten_cons, List.nil_append]
    exact ih

theorem totalItems_replicate_nil (n : Nat) :
    totalItems (List.replicate n ([] : List Item)) = 0 := by
  simp [totalItems, List.map_replicate, List.sum_replicate]

theorem mem_flatten_set {l : List (List Item)} {k : Nat} {c : List Item} {a : Item}
    (h : a ∈ (l.set k c).flatten) : a ∈ c ∨ a ∈ l.flatten := by
  obtain ⟨s, hs, has⟩ := List.mem_flatten.mp h
  rcases List.mem_or_eq_of_mem_set hs with hmem | rfl
  · exact Or.inr (List.mem_flatten.mpr ⟨s, hmem, has⟩)
  · exact Or.inl has

theorem colAt_mem_flatten {cols : List (List Item)} {num : Nat} {a : Item}
    (h : a ∈ colAt cols num) : a ∈ cols.flatten := by
  unfold colAt at h
  by_cases hlt : num - 1 < cols.length
  · exact List.mem_flatten.mpr ⟨_, getD_mem [] hlt, h⟩
  · rw [List.getD_eq_default] at h
    · exact absurd h (List.not_mem_nil a)
    · omega

theorem dropLast_append_getLast_of_getLast? :
    ∀ (l : List Item) (it : Item), l.getLast? = some it → l.dropLast ++ [it] = l
  | [], it, h => by simp at h
  | [x], it, h => by
    simp only [List.getLast?_singleton, Option.some.injEq] at h
    simp [h]
  | x :: y :: r, it, h => by
    rw [List.getLast?_cons_cons] at h
    have := dropLast_append_getLast_of_getLast? (y :: r) it h
    simpa [List.dropLast] using this

theorem colHeight_append_one (l : List Item) (it : Item) :
    colHeight (l ++ [it]) = colHeight l + it.height := by
  simp [colHeight, List.map_append, List.sum_append]

/-! ### Helpers about `appendToCol` and `moveItemsAux` -/

theorem appendToCol_length : ∀ (cols : List (List Item)) (n : Nat) (it : Item),
    (appendToCol cols n it).length = cols.length
  | [], _, _ => rfl
  | _ :: _, 0, _ => rfl
  | _ :: _, 1, _ => by simp [appendToCol]
  | c :: cs, n + 2, it => by
    simpa [appendToCol] using appendToCol_length cs (n + 1) it

theorem appendToCol_flatten_perm :
    ∀ (cols : List (List Item)) (n : Nat) (it : Item), 1 ≤ n → n ≤ cols.length →
      ((appendToCol cols n it).flatten).Perm (cols.flatten ++ [it])
  | [], n, it, h1, h2 => by simp at h1 h2; omega
  | c :: cs, 1, it, _, _ => by
    simp only [appendToCol, List.flatten_cons, List.append_assoc]
    exact (List.Perm.append_left c (List.perm_append_comm))
  | c :: cs, n + 2, it, _, h2 => by
    simp only [appendToCol, List.flatten_cons]
    have ih := appendToCol_flatten_perm cs (n + 1) it (by omega) (by simpa using h2)
    have h3 := List.Perm.append_left c ih
    simpa [List.append_assoc] using h3

theorem appendToCol_colAt_self :
    ∀ (cols : List (List Item)) (n : Nat) (it : Item), 1 ≤ n → n ≤ cols.length →
      colAt (appendToCol cols n it) n = colAt cols n ++ [it]
  | [], n, it, h1, h2 => by simp at h2; omega
  | c :: cs, 1, it, _, _ => by simp [appendToCol, colAt]
  | c :: cs, n + 2, it, _, h2 => by
    have ih := appendToCol_colAt_self cs (n + 1) it (by omega) (by simpa using h2)
    simpa [appendToCol, colAt] using ih

theorem placeItem_settingsCols (s : LaceState) (i : Nat) (it : Item) :
    (placeItem s i it).settingsCols = s.settingsCols := rfl

theorem placeItem_cacheCols (s : LaceState) (i : Nat) (it : Item) :
    (placeItem s i it).cache.cols = s.cache.cols := rfl

theorem placeItem_itemIndex (s : LaceState) (i : Nat) (it : Item) :
    (placeItem s i it).cache.itemIndex = s.cache.itemIndex + 1 := rfl

theorem placeItem_colsLength (s : LaceState) (i : Nat) (it : Item) :
    (placeItem s i it).cols.length = s.cols.length := by
  simp [placeItem, appendToCol_length]

theorem targetCol_range (s : LaceState) (i : Nat) (h : 1 ≤ s.settingsCols) :
    1 ≤ targetCol s i ∧ targetCol s i ≤ s.settingsCols := by
  unfold targetCol
  split
  · have := Nat.mod_lt (s.cache.lastColAppended.getD 0) (show 0 < s.settingsCols by omega)
    omega
  · have := Nat.mod_lt i (show 0 < s.settingsCols by omega)
    omega

theorem moveItemsAux_settingsCols :
    ∀ (b : List Item) (s : LaceState) (i : Nat),
      (moveItemsAux s i b).1.settingsCols = s.settingsCols
  | [], _, _ => rfl
  | it :: rest, s, i => by
    simp only [moveItemsAux]
    rw [moveItemsAux_settingsCols rest (placeItem s i it) (i + 1),
      placeItem_settingsCols]

theorem moveItemsAux_cacheCols :
    ∀ (b : List Item) (s : LaceState) (i : Nat),
      (moveItemsAux s i b).1.cache.cols = s.cache.cols
  | [], _, _ => rfl
  | it :: rest, s, i => by
    simp only [moveItemsAux]
    rw [moveItemsAux_cacheCols rest (placeItem s i it) (i + 1), placeItem_cacheCols]

theorem moveItemsAux_colsLength :
    ∀ (b : List Item) (s : LaceState) (i : Nat),
      (moveItemsAux s i b).1.cols.length = s.cols.length
  | [], _, _ => rfl
  | it :: rest, s, i => by
    simp only [moveItemsAux]
    rw [moveItemsAux_colsLength rest (placeItem s i it) (i + 1), placeItem_colsLength]

/-- Helper: `evenBottom` is the identity when no item is in the grid. -/
theorem evenBottom_of_no_items (s : LaceState) (h : totalItems s.cols = 0) :
    evenBottom s = s := by
  simp [evenBottom, h]

/-! ### Claim C5: column count derivation -/

/-- C5: for every containerWidth, colWidth, colPadding, windowPadding and
minCols (with a positive per-column width, the only case in which the
JavaScript division is a real number), the derived column count equals
`max (floor ((containerWidth - windowPadding) / (colWidth + colPadding))) minCols`,
and in particular it is always at least `minCols`, including when the raw
quotient is zero or negative. -/
theorem getColumnCount_max_minCols (containerWidth colWidth colPadding
    windowPadding minCols : Int) (h : 0 < colWidth + colPadding) :
    getColumnCount containerWidth colWidth colPadding windowPadding minCols =
      max (Int.fdiv (containerWidth - windowPadding) (colWidth + colPadding)) minCols ∧
    minCols ≤ getColumnCount containerWidth colWidth colPadding windowPadding minCols := by
  simp only [getColumnCount]
  generalize Int.fdiv (containerWidth - windowPadding) (colWidth + colPadding) = d
  constructor
  · split <;> omega
  · split <;> omega

/-- Witness for C5 at a concrete configuration in which the raw quotient is
negative (container narrower than the window padding). -/
theorem getColumnCount_max_minCols_w :
    getColumnCount 40 200 10 50 1 = max (Int.fdiv (40 - 50) (200 + 10)) 1 ∧
    (1 : Int) ≤ getColumnCount 40 200 10 50 1 :=
  getColumnCount_max_minCols 40 200 10 50 1 (by decide)

/-! ### Claim C8: evenBottom no-op conditions -/

/-- C8: `evenBottom` (balance) leaves the entire grid state unchanged
whenever the grid holds fewer than 2 items in total, or the difference
between the highest and shortest column heights is at most the imbalance
threshold 500. -/
theorem evenBottom_noop (s : LaceState)
    (h : totalItems s.cols < 2 ∨ gapNat s.cols ≤ 500) :
    evenBottom s = s := by
  by_cases h0 : totalItems s.cols = 0
  · exact evenBottom_of_no_items s h0
  · rcases hr : getColumnHeightsRes s.cols with _ | r
    · simp [evenBottom, h0, hr]
    · by_cases h5 : (((r.highestValue : Int) - (r.shortestValue : Int))).natAbs ≤ 500
      · simp [evenBottom, h0, hr, h5]
      · have hg : gapNat s.cols =
            (((r.highestValue : Int) - (r.shortestValue : Int))).natAbs := by
          simp [gapNat, hr]
        have h1 : totalItems s.cols = 1 := by omega
        simp [evenBottom, h0, hr, h5, h1]

/-- Witness for C8: a one-item grid is left untouched by `evenBottom`. -/
theorem evenBottom_noop_w :
    evenBottom ⟨[[⟨1, 0, 10⟩]], 1, ⟨1, none, 1⟩⟩ = ⟨[[⟨1, 0, 10⟩]], 1, ⟨1, none, 1⟩⟩ :=
  evenBottom_noop ⟨[[⟨1, 0, 10⟩]], 1, ⟨1, none, 1⟩⟩ (Or.inl (by decide))

/-! ### Claim C10: assignment targets stay in range -/

/-- C10: every column index computed by the assignment step lies in the
range `1..settings.cols` whenever `settings.cols ≥ 1` — both branches
compute `(x mod cols) + 1` for a non-negative `x`, so no item is ever
targeted at a non-existent column. -/
theorem moveItems_targets_in_range :
    ∀ (items : List Item) (s : LaceState) (i : Nat), 1 ≤ s.settingsCols →
      ∀ n ∈ (moveItemsAux s i items).2, 1 ≤ n ∧ n ≤ s.settingsCols
  | [], _, _, _, n, hn => by simp [moveItemsAux] at hn
  | it :: rest, s, i, h, n, hn => by
    simp only [moveItemsAux, List.mem_cons] at hn
    rcases hn with rfl | hn
    · exact targetCol_range s i h
    · have := moveItems_targets_in_range rest (placeItem s i it) (i + 1)
        (by rwa [placeItem_settingsCols]) n hn
      rwa [placeItem_settingsCols] at this

/-- Witness for C10 on a two-item batch over three columns. -/
theorem moveItems_targets_in_range_w :
    (moveItemsAux ⟨List.replicate 3 [], 3, ⟨3, none, 0⟩⟩ 0
        [⟨1, 0, 10⟩, ⟨2, 0, 10⟩]).2 = [1, 2] ∧ (1 ≤ 2 ∧ 2 ≤ 3) :=
  ⟨by decide,
   moveItems_targets_in_range [⟨1, 0, 10⟩, ⟨2, 0, 10⟩]
     ⟨List.replicate 3 [], 3, ⟨3, none, 0⟩⟩ 0 (by decide) 2 (by decide)⟩

/-! ### Claim C1: round-robin assignment -/

/-- C1: the first item of a session (with `lastColAppended` cleared) goes to
column `(i mod cols) + 1` for batch position `i`, every subsequent item goes
to column `(lastColAppended mod cols) + 1`, and the rotation continues
across separate `append` calls rather than restarting: with three columns,
appending six items one at a time places them in columns 1,2,3,1,2,3. -/
theorem roundRobin_assignment :
    (∀ (s : LaceState) (i : Nat) (it : Item) (rest : List Item),
        s.cache.lastColAppended = none →
        ((moveItemsAux s i (it :: rest)).2).head? = some (i % s.settingsCols + 1)) ∧
    (∀ (s : LaceState) (i : Nat) (it : Item) (rest : List Item) (v : Nat),
        s.cache.lastColAppended = some v → v ≠ 0 →
        ((moveItemsAux s i (it :: rest)).2).head? = some (v % s.settingsCols + 1)) ∧
    (let s0 : LaceState := ⟨List.replicate 3 [], 3, ⟨3, none, 0⟩⟩
     let s1 := append s0 [⟨1, 0, 10⟩]
     let s2 := append s1 [⟨2, 0, 10⟩]
     let s3 := append s2 [⟨3, 0, 10⟩]
     let s4 := append s3 [⟨4, 0, 10⟩]
     let s5 := append s4 [⟨5, 0, 10⟩]
     appendTargets s0 [⟨1, 0, 10⟩] ++ appendTargets s1 [⟨2, 0, 10⟩] ++
       appendTargets s2 [⟨3, 0, 10⟩] ++ appendTargets s3 [⟨4, 0, 10⟩] ++
       appendTargets s4 [⟨5, 0, 10⟩] ++ appendTargets s5 [⟨6, 0, 10⟩] =
         [1, 2, 3, 1, 2, 3] ∧
     (append s5 [⟨6, 0, 10⟩]).cols.map (fun c => c.map Item.id) =
       [[1, 4], [2, 5], [3, 6]]) := by
  refine ⟨?_, ?_, ?_⟩
  · intro s i it rest hnone
    simp [moveItemsAux, targetCol, jsTruthy, hnone]
  · intro s i it rest v hv hv0
    have hb : (v != 0) = true := by simpa using hv0
    simp [moveItemsAux, targetCol, jsTruthy, hv, hb]
  · decide

/-- Witness for C1: the first-item branch at a fresh three-column state. -/
theorem roundRobin_assignment_w :
    ((moveItemsAux ⟨List.replicate 3 [], 3, ⟨3, none, 0⟩⟩ 0 [⟨1, 0, 10⟩]).2).head? =
      some (0 % 3 + 1) :=
  roundRobin_assignment.1 ⟨List.replicate 3 [], 3, ⟨3, none, 0⟩⟩ 0 ⟨1, 0, 10⟩ [] rfl

/-! ### Claim C4: removeAll -/

/-- C4 counterexample: bootstrap ten items into a three-column grid
(`lastColAppended` ends at 1), call `removeAll`, then append one item: zero
items and three empty columns remain, but the appended item lands in
column 2, not column 1, because `removeAll` does not reset
`cache.lastColAppended`. -/
theorem removeAll_append_counterexample :
    (let s10 := moveItemsIntoCols ⟨List.replicate 3 [], 3, ⟨3, none, 0⟩⟩
        [⟨1, 0, 10⟩, ⟨2, 0, 10⟩, ⟨3, 0, 10⟩, ⟨4, 0, 10⟩, ⟨5, 0, 10⟩,
         ⟨6, 0, 10⟩, ⟨7, 0, 10⟩, ⟨8, 0, 10⟩, ⟨9, 0, 10⟩, ⟨10, 0, 10⟩]
     totalItems s10.cols = 10 ∧ s10.cols.length = 3 ∧
     s10.cache.lastColAppended = some 1 ∧
     totalItems (removeAll s10).cols = 0 ∧
     (removeAll s10).cols.length = 3 ∧
     (append (removeAll s10) [⟨99, 0, 50⟩]).cols =
       [[], [⟨99, 10, 50⟩], []]) := by
  decide

/-- C4 amended: after `removeAll()` zero items remain and `settings.cols`
empty columns remain, but `removeAll` does not reset the cache, so a
subsequent append places its first item at column
`(lastColAppended mod columnCount) + 1` (continuing the prior rotation);
it starts at column 1 exactly when `lastColAppended` is unset (no prior
append) or `lastColAppended mod columnCount = 0`. -/
theorem removeAll_amended (s : LaceState) (it : Item) (h : 1 ≤ s.settingsCols) :
    totalItems (removeAll s).cols = 0 ∧
    (removeAll s).cols = List.replicate s.settingsCols [] ∧
    (removeAll s).cache = s.cache ∧
    appendTargets (removeAll s) [it] =
      [if jsTruthy s.cache.lastColAppended then
          s.cache.lastColAppended.getD 0 % s.settingsCols + 1
        else 1] ∧
    colAt (append (removeAll s) [it]).cols
        (if jsTruthy s.cache.lastColAppended then
          s.cache.lastColAppended.getD 0 % s.settingsCols + 1
        else 1) = [{ it with sortIndex := s.cache.itemIndex }] := by
  have h0 : totalItems (removeAll s).cols = 0 := totalItems_replicate_nil _
  have heb : evenBottom (removeAll s) = removeAll s := evenBottom_of_no_items _ h0
  have hT : targetCol (removeAll s) 0 =
      (if jsTruthy s.cache.lastColAppended then
        s.cache.lastColAppended.getD 0 % s.settingsCols + 1
      else 1) := by
    by_cases ht : jsTruthy s.cache.lastColAppended <;>
      simp [targetCol, removeAll, ht]
  refine ⟨h0, rfl, rfl, ?_, ?_⟩
  · rw [show appendTargets (removeAll s) [it] =
        (moveItemsAux (evenBottom (removeAll s)) 0 [it]).2 from by
          simp [appendTargets], heb]
    simp only [moveItemsAux]
    rw [hT]
  · have hrange := targetCol_range (removeAll s) 0 h
    have hlen : (removeAll s).cols.length = s.settingsCols := by simp [removeAll]
    rw [← hT]
    have happ : append (removeAll s) [it] = (moveItemsAux (removeAll s) 0 [it]).1 := by
      simp [append, moveItemsIntoCols, heb]
    rw [happ]
    show colAt (placeItem (removeAll s) 0 it).cols (targetCol (removeAll s) 0) = _
    unfold placeItem
    rw [appendToCol_colAt_self _ _ _ hrange.1 (by rw [hlen]; exact hrange.2)]
    simp [removeAll, colAt, getD_replicate_nil]

/-- Witness for C4 amended: a grid whose `lastColAppended` is 1 over two
columns; after `removeAll` the appended item goes to column 2 and carries
the next `sortIndex`. -/
theorem removeAll_amended_w :
    totalItems (removeAll ⟨[[⟨1, 0, 10⟩]], 2, ⟨2, some 1, 5⟩⟩).cols = 0 ∧
    (removeAll ⟨[[⟨1, 0, 10⟩]], 2, ⟨2, some 1, 5⟩⟩).cols = List.replicate 2 [] ∧
    (removeAll ⟨[[⟨1, 0, 10⟩]], 2, ⟨2, some 1, 5⟩⟩).cache = ⟨2, some 1, 5⟩ ∧
    appendTargets (removeAll ⟨[[⟨1, 0, 10⟩]], 2, ⟨2, some 1, 5⟩⟩) [⟨7, 0, 5⟩] = [2] ∧
    colAt (append (removeAll ⟨[[⟨1, 0, 10⟩]], 2, ⟨2, some 1, 5⟩⟩) [⟨7, 0, 5⟩]).cols 2 =
      [⟨7, 5, 5⟩] :=
  removeAll_amended ⟨[[⟨1, 0, 10⟩]], 2, ⟨2, some 1, 5⟩⟩ ⟨7, 0, 5⟩ (by decide)

/-! ### Claim C9: configuration error reporting -/

/-- C9 counterexample: with all three required fields missing, the
constructor reports errors only for `selector` and `colWidth`; the missing
`colPadding` defaults to 0, which fails the `== null` check, so no
`colPadding` error is reported even though construction proceeds. -/
theorem laceInit_counterexample :
    (laceInit ⟨none, none, none⟩).1 =
      ["Missing \"selector\" param", "Missing \"colWidth\" param"] ∧
    "Missing \"colPadding\" param" ∉ (laceInit ⟨none, none, none⟩).1 := by
  decide

/-- C9 amended: initialize reports a configuration error for a missing (or
null) `selector` and for a missing or zero `colWidth`, and still proceeds
with construction; a missing `colPadding` is never reported (its default 0
fails the `== null` comparison) — a `colPadding` error appears only when
the field is passed as an explicit null. -/
theorem laceInit_amended (o : LaceOptions) (hp : o.colPadding = none) :
    ("Missing \"selector\" param" ∈ (laceInit o).1 ↔ (mergeOptions o).selector = none) ∧
    ("Missing \"colWidth\" param" ∈ (laceInit o).1 ↔ (mergeOptions o).colWidth = 0) ∧
    "Missing \"colPadding\" param" ∉ (laceInit o).1 ∧
    "Missing \"colPadding\" param" ∈ (laceInit { o with colPadding := some none }).1 ∧
    (laceInit o).2 = mergeOptions o := by
  obtain ⟨sel, cw, cp⟩ := o
  rcases cp with _ | cp'
  · by_cases h1 : (mergeOptions ⟨sel, cw, none⟩).selector = none <;>
      by_cases h2 : (mergeOptions ⟨sel, cw, none⟩).colWidth = 0 <;>
        simp [laceInit, configErrors, mergeOptions, h1, h2] at *
  · simp at hp

/-! ### Specification of the height scans -/

theorem scanMinAux_spec :
    ∀ (hs : List Nat) (i lh c : Nat),
      ∃ lh' c', scanMinAux i (some (lh, c)) hs = some (lh', c') ∧
        ((lh' = lh ∧ c' = c ∧ ∀ v ∈ hs, lh ≤ v) ∨
         (∃ j, j < hs.length ∧ c' = i + 1 + j ∧ hs.getD j 0 = lh' ∧ lh' < lh ∧
           (∀ k, k < j → lh' < hs.getD k 0) ∧
           (∀ k, k < hs.length → lh' ≤ hs.getD k 0)))
  | [], i, lh, c => ⟨lh, c, rfl, Or.inl ⟨rfl, rfl, by simp⟩⟩
  | v :: rest, i, lh, c => by
    by_cases hv : v < lh
    · obtain ⟨lh', c', heq, hspec⟩ := scanMinAux_spec rest (i + 1) v (i + 1)
      refine ⟨lh', c', by simp [scanMinAux, hv, heq], Or.inr ?_⟩
      rcases hspec with ⟨rfl, rfl, h3⟩ | ⟨j, hj, hc', hget, hlt, hbefore, hall⟩
      · refine ⟨0, by simp, by omega, by simp, hv, by omega, ?_⟩
        intro k hk
        cases k with
        | zero => simp
        | succ m =>
          simp only [List.getD_cons_succ]
          exact h3 _ (getD_mem 0 (by simpa using hk))
      · refine ⟨j + 1, by simpa using hj, by omega, by simpa using hget,
          lt_trans hlt hv, ?_, ?_⟩
        · intro k hk
          cases k with
          | zero => simpa using hlt
          | succ m => simpa using hbefore m (by omega)
        · intro k hk
          cases k with
          | zero => simpa using le_of_lt hlt
          | succ m => simpa using hall m (by simpa using hk)
    · obtain ⟨lh', c', heq, hspec⟩ := scanMinAux_spec rest (i + 1) lh c
      refine ⟨lh', c', by simp [scanMinAux, hv, heq], ?_⟩
      rcases hspec with ⟨rfl, rfl, h3⟩ | ⟨j, hj, hc', hget, hlt, hbefore, hall⟩
      · refine Or.inl ⟨rfl, rfl, ?_⟩
        intro w hw
        rcases List.mem_cons.mp hw with rfl | hw
        · omega
        · exact h3 w hw
      · refine Or.inr ⟨j + 1, by simpa using hj, by omega, by simpa using hget,
          hlt, ?_, ?_⟩
        · intro k hk
          cases k with
          | zero => simp; omega
          | succ m => simpa using hbefore m (by omega)
        · intro k hk
          cases k with
          | zero => simp; omega
          | succ m => simpa using hall m (by simpa using hk)

theorem scanMaxAux_spec :
    ∀ (hs : List Nat) (i lh c : Nat),
      ∃ lh' c', scanMaxAux i (some (lh, c)) hs = some (lh', c') ∧
        ((lh' = lh ∧ c' = c ∧ ∀ v ∈ hs, v ≤ lh) ∨
         (∃ j, j < hs.length ∧ c' = i + 1 + j ∧ hs.getD j 0 = lh' ∧ lh < lh' ∧
           (∀ k, k < j → hs.getD k 0 < lh') ∧
           (∀ k, k < hs.length → hs.getD k 0 ≤ lh')))
  | [], i, lh, c => ⟨lh, c, rfl, Or.inl ⟨rfl, rfl, by simp⟩⟩
  | v :: rest, i, lh, c => by
    by_cases hv : lh < v
    · obtain ⟨lh', c', heq, hspec⟩ := scanMaxAux_spec rest (i + 1) v (i + 1)
      refine ⟨lh', c', by simp [scanMaxAux, hv, heq], Or.inr ?_⟩
      rcases hspec with ⟨rfl, rfl, h3⟩ | ⟨j, hj, hc', hget, hlt, hbefore, hall⟩
      · refine ⟨0, by simp, by omega, by simp, hv, by omega, ?_⟩
        intro k hk
        cases k with
        | zero => simp
        | succ m =>
          simp only [List.getD_cons_succ]
          exact h3 _ (getD_mem 0 (by simpa using hk))
      · refine ⟨j + 1, by simpa using hj, by omega, by simpa using hget,
          lt_trans hv hlt, ?_, ?_⟩
        · intro k hk
          cases k with
          | zero => simpa using hlt
          | succ m => simpa using hbefore m (by omega)
        · intro k hk
          cases k with
          | zero => simpa using le_of_lt hlt
          | succ m => simpa using hall m (by simpa using hk)
    · obtain ⟨lh', c', heq, hspec⟩ := scanMaxAux_spec rest (i + 1) lh c
      refine ⟨lh', c', by simp [scanMaxAux, hv, heq], ?_⟩
      rcases hspec with ⟨rfl, rfl, h3⟩ | ⟨j, hj, hc', hget, hlt, hbefore, hall⟩
      · refine Or.inl ⟨rfl, rfl, ?_⟩
        intro w hw
        rcases List.mem_cons.mp hw with rfl | hw
        · omega
        · exact h3 w hw
      · refine Or.inr ⟨j + 1, by simpa using hj, by omega, by simpa using hget,
          hlt, ?_, ?_⟩
        · intro k hk
          cases k with
          | zero => simp; omega
          | succ m => simpa using hbefore m (by omega)
        · intro k hk
          cases k with
          | zero => simp; omega
          | succ m => simpa using hall m (by simpa using hk)

/-- Full specification of `_getColumnHeights` on a non-empty column list:
the shortest is the earliest column attaining the minimum height (strict
`<` tracking keeps the earlier column on ties), the highest is the earliest
column attaining the maximum (strict `>` tracking), with the first column
initializing the running extremum. -/
theorem colHeights_spec (cols : List (List Item)) (h : cols ≠ []) :
    ∃ r, getColumnHeightsRes cols = some r ∧
      1 ≤ r.shortestCol ∧ r.shortestCol ≤ cols.length ∧
      (cols.map colHeight).getD (r.shortestCol - 1) 0 = r.shortestValue ∧
      (∀ k, k < cols.length → r.shortestValue ≤ (cols.map colHeight).getD k 0) ∧
      (∀ k, k < r.shortestCol - 1 → r.shortestValue < (cols.map colHeight).getD k 0) ∧
      1 ≤ r.highestCol ∧ r.highestCol ≤ cols.length ∧
      (cols.map colHeight).getD (r.highestCol - 1) 0 = r.highestValue ∧
      (∀ k, k < cols.length → (cols.map colHeight).getD k 0 ≤ r.highestValue) ∧
      (∀ k, k < r.highestCol - 1 → (cols.map colHeight).getD k 0 < r.highestValue) := by
  rcases hcols : cols.map colHeight with _ | ⟨h0, hrest⟩
  · exact absurd (List.map_eq_nil_iff.mp hcols) h
  have hlen : cols.length = hrest.length + 1 := by
    have := congrArg List.length hcols
    simpa using this
  obtain ⟨sv, sc, heqMin, hspecMin⟩ := scanMinAux_spec hrest 1 h0 1
  obtain ⟨hv, hc, heqMax, hspecMax⟩ := scanMaxAux_spec hrest 1 h0 1
  have hres : getColumnHeightsRes cols =
      some { highestCol := hc, highestValue := hv,
             shortestCol := sc, shortestValue := sv } := by
    have hne : ¬ cols.length = 0 := by omega
    simp only [getColumnHeightsRes, hne, if_false, hcols]
    rw [show scanMinAux 0 none (h0 :: hrest) = scanMinAux 1 (some (h0, 1)) hrest from rfl,
      show scanMaxAux 0 none (h0 :: hrest) = scanMaxAux 1 (some (h0, 1)) hrest from rfl,
      heqMin, heqMax]
  refine ⟨_, hres, ?_, ?_, ?_, ?_, ?_, ?_, ?_, ?_, ?_, ?_⟩
  · rcases hspecMin with ⟨_, rfl, _⟩ | ⟨j, hj, rfl, _⟩ <;> simp <;> omega
  · rcases hspecMin with ⟨_, rfl, _⟩ | ⟨j, hj, rfl, _⟩ <;> simp <;> omega
  · rcases hspecMin with ⟨rfl, rfl, _⟩ | ⟨j, hj, rfl, hget, _⟩
    · simp
    · have hidx : 1 + 1 + j - 1 = j + 1 := by omega
      rw [hidx]
      simpa using hget
  · rcases hspecMin with ⟨rfl, rfl, h3⟩ | ⟨j, hj, rfl, hget, hlt, hbefore, hall⟩ <;>
      intro k hk
    · cases k with
      | zero => simp
      | succ m =>
        simp only [List.getD_cons_succ]
        exact h3 _ (getD_mem 0 (by omega))
    · cases k with
      | zero => simpa using le_of_lt hlt
      | succ m => simpa using hall m (by omega)
  · rcases hspecMin with ⟨rfl, rfl, h3⟩ | ⟨j, hj, rfl, hget, hlt, hbefore, hall⟩ <;>
      intro k hk <;> dsimp only at hk
    · omega
    · cases k with
      | zero => simpa using hlt
      | succ m => simpa using hbefore m (by omega)
  · rcases hspecMax with ⟨_, rfl, _⟩ | ⟨j, hj, rfl, _⟩ <;> simp <;> omega
  · rcases hspecMax with ⟨_, rfl, _⟩ | ⟨j, hj, rfl, _⟩ <;> simp <;> omega
  · rcases hspecMax with ⟨rfl, rfl, _⟩ | ⟨j, hj, rfl, hget, _⟩
    · simp
    · have hidx : 1 + 1 + j - 1 = j + 1 := by omega
      rw [hidx]
      simpa using hget
  · rcases hspecMax with ⟨rfl, rfl, h3⟩ | ⟨j, hj, rfl, hget, hlt, hbefore, hall⟩ <;>
      intro k hk
    · cases k with
      | zero => simp
      | succ m =>
        simp only [List.getD_cons_succ]
        exact h3 _ (getD_mem 0 (by omega))
    · cases k with
      | zero => simpa using le_of_lt hlt
      | succ m => simpa using hall m (by omega)
  · rcases hspecMax with ⟨rfl, rfl, h3⟩ | ⟨j, hj, rfl, hget, hlt, hbefore, hall⟩ <;>
      intro k hk <;> dsimp only at hk
    · omega
    · cases k with
      | zero => simpa using hlt
      | succ m => simpa using hbefore m (by omega)

/-! ### Claim C6: height query tie-breaking -/

/-- C6: for every non-empty column sequence scanned in ascending index
order, the height query returns a result whose shortest is the earliest
column attaining the minimum height (strict `<` tracking, so a tie keeps
the earlier column: every strictly earlier column is strictly taller) and
whose highest is the earliest column attaining the maximum (strict `>`
tracking, ties again kept by the earlier column), with the first column
initializing the running extremum. -/
theorem heightQuery_earliest_extrema (cols : List (List Item)) (h : cols ≠ []) :
    ∃ r, getColumnHeightsRes cols = some r ∧
      1 ≤ r.shortestCol ∧ r.shortestCol ≤ cols.length ∧
      (cols.map colHeight).getD (r.shortestCol - 1) 0 = r.shortestValue ∧
      (∀ k, k < cols.length → r.shortestValue ≤ (cols.map colHeight).getD k 0) ∧
      (∀ k, k < r.shortestCol - 1 →
        r.shortestValue < (cols.map colHeight).getD k 0) ∧
      1 ≤ r.highestCol ∧ r.highestCol ≤ cols.length ∧
      (cols.map colHeight).getD (r.highestCol - 1) 0 = r.highestValue ∧
      (∀ k, k < cols.length → (cols.map colHeight).getD k 0 ≤ r.highestValue) ∧
      (∀ k, k < r.highestCol - 1 →
        (cols.map colHeight).getD k 0 < r.highestValue) :=
  colHeights_spec cols h

/-- Witness for C6 at two concrete grids: an all-equal-heights tie
`[4, 4, 4]` (both extrema fall to column 1, the earliest) and distinct
heights `[5, 1, 9]` (shortest is column 2, highest is column 3). -/
theorem heightQuery_earliest_extrema_w :
    (∃ r, getColumnHeightsRes ([[⟨1, 0, 4⟩], [⟨2, 0, 4⟩], [⟨3, 0, 4⟩]] : List (List Item)) = some r ∧
      1 ≤ r.shortestCol ∧ r.shortestCol ≤ ([[⟨1, 0, 4⟩], [⟨2, 0, 4⟩], [⟨3, 0, 4⟩]] : List (List Item)).length ∧
      (([[⟨1, 0, 4⟩], [⟨2, 0, 4⟩], [⟨3, 0, 4⟩]] : List (List Item)).map colHeight).getD (r.shortestCol - 1) 0 = r.shortestValue ∧
      (∀ k, k < ([[⟨1, 0, 4⟩], [⟨2, 0, 4⟩], [⟨3, 0, 4⟩]] : List (List Item)).length → r.shortestValue ≤ (([[⟨1, 0, 4⟩], [⟨2, 0, 4⟩], [⟨3, 0, 4⟩]] : List (List Item)).map colHeight).getD k 0) ∧
      (∀ k, k < r.shortestCol - 1 →
        r.shortestValue < (([[⟨1, 0, 4⟩], [⟨2, 0, 4⟩], [⟨3, 0, 4⟩]] : List (List Item)).map colHeight).getD k 0) ∧
      1 ≤ r.highestCol ∧ r.highestCol ≤ ([[⟨1, 0, 4⟩], [⟨2, 0, 4⟩], [⟨3, 0, 4⟩]] : List (List Item)).length ∧
      (([[⟨1, 0, 4⟩], [⟨2, 0, 4⟩], [⟨3, 0, 4⟩]] : List (List Item)).map colHeight).getD (r.highestCol - 1) 0 = r.highestValue ∧
      (∀ k, k < ([[⟨1, 0, 4⟩], [⟨2, 0, 4⟩], [⟨3, 0, 4⟩]] : List (List Item)).length → (([[⟨1, 0, 4⟩], [⟨2, 0, 4⟩], [⟨3, 0, 4⟩]] : List (List Item)).map colHeight).getD k 0 ≤ r.highestValue) ∧
      (∀ k, k < r.highestCol - 1 →
        (([[⟨1, 0, 4⟩], [⟨2, 0, 4⟩], [⟨3, 0, 4⟩]] : List (List Item)).map colHeight).getD k 0 < r.highestValue)) ∧
    (∃ r, getColumnHeightsRes ([[⟨1, 0, 5⟩], [⟨2, 0, 1⟩], [⟨3, 0, 9⟩]] : List (List Item)) = some r ∧
      1 ≤ r.shortestCol ∧ r.shortestCol ≤ ([[⟨1, 0, 5⟩], [⟨2, 0, 1⟩], [⟨3, 0, 9⟩]] : List (List Item)).length ∧
      (([[⟨1, 0, 5⟩], [⟨2, 0, 1⟩], [⟨3, 0, 9⟩]] : List (List Item)).map colHeight).getD (r.shortestCol - 1) 0 = r.shortestValue ∧
      (∀ k, k < ([[⟨1, 0, 5⟩], [⟨2, 0, 1⟩], [⟨3, 0, 9⟩]] : List (List Item)).length → r.shortestValue ≤ (([[⟨1, 0, 5⟩], [⟨2, 0, 1⟩], [⟨3, 0, 9⟩]] : List (List Item)).map colHeight).getD k 0) ∧
      (∀ k, k < r.shortestCol - 1 →
        r.shortestValue < (([[⟨1, 0, 5⟩], [⟨2, 0, 1⟩], [⟨3, 0, 9⟩]] : List (List Item)).map colHeight).getD k 0) ∧
      1 ≤ r.highestCol ∧ r.highestCol ≤ ([[⟨1, 0, 5⟩], [⟨2, 0, 1⟩], [⟨3, 0, 9⟩]] : List (List Item)).length ∧
      (([[⟨1, 0, 5⟩], [⟨2, 0, 1⟩], [⟨3, 0, 9⟩]] : List (List Item)).map colHeight).getD (r.highestCol - 1) 0 = r.highestValue ∧
      (∀ k, k < ([[⟨1, 0, 5⟩], [⟨2, 0, 1⟩], [⟨3, 0, 9⟩]] : List (List Item)).length → (([[⟨1, 0, 5⟩], [⟨2, 0, 1⟩], [⟨3, 0, 9⟩]] : List (List Item)).map colHeight).getD k 0 ≤ r.highestValue) ∧
      (∀ k, k < r.highestCol - 1 →
        (([[⟨1, 0, 5⟩], [⟨2, 0, 1⟩], [⟨3, 0, 9⟩]] : List (List Item)).map colHeight).getD k 0 < r.highestValue)) :=
  ⟨heightQuery_earliest_extrema [[⟨1, 0, 4⟩], [⟨2, 0, 4⟩], [⟨3, 0, 4⟩]] (by decide),
   heightQuery_earliest_extrema [[⟨1, 0, 5⟩], [⟨2, 0, 1⟩], [⟨3, 0, 9⟩]] (by decide)⟩

/-! ### Gap analysis of the balancer -/

theorem evenStep_eq_of_move (cols : List (List Item)) (r : ColHeightsResult)
    (it : Item) (hr : getColumnHeightsRes cols = some r)
    (hl : (colAt cols r.highestCol).getLast? = some it) :
    evenStep cols =
      (cols.set (r.highestCol - 1) (colAt cols r.highestCol).dropLast).set
        (r.shortestCol - 1)
        (colAt (cols.set (r.highestCol - 1) (colAt cols r.highestCol).dropLast)
            r.shortestCol ++ [it]) := by
  simp [evenStep, hr, hl, setColAt]

theorem evenStep_subset (cols : List (List Item)) :
    ∀ {y : Item}, y ∈ (evenStep cols).flatten → y ∈ cols.flatten := by
  rcases hr : getColumnHeightsRes cols with _ | r
  · intro y hy
    simpa [evenStep, hr] using hy
  rcases hl : (colAt cols r.highestCol).getLast? with _ | it
  · intro y hy
    simpa [evenStep, hr, hl] using hy
  intro y hy
  rw [evenStep_eq_of_move cols r it hr hl] at hy
  have hdl : ∀ {z : Item}, z ∈ (colAt cols r.highestCol).dropLast →
      z ∈ cols.flatten := by
    intro z hz
    refine colAt_mem_flatten (show z ∈ colAt cols r.highestCol from ?_)
    rw [← dropLast_append_getLast_of_getLast? _ it hl]
    exact List.mem_append_left _ hz
  have hitmem : it ∈ cols.flatten := by
    refine colAt_mem_flatten (show it ∈ colAt cols r.highestCol from ?_)
    rw [← dropLast_append_getLast_of_getLast? _ it hl]
    exact List.mem_append_right _ (by simp)
  rcases mem_flatten_set hy with h1 | h1
  · rcases List.mem_append.mp h1 with h2 | h2
    · have h3 := colAt_mem_flatten h2
      rcases mem_flatten_set h3 with h4 | h4
      · exact hdl h4
      · exact h4
    · have : y = it := by simpa using h2
      subst this
      exact hitmem
  · rcases mem_flatten_set h1 with h4 | h4
    · exact hdl h4
    · exact h4

theorem evenStep_gap_le (cols : List (List Item)) (B : Nat)
    (hB : ∀ it ∈ cols.flatten, 2 * it.height ≤ B)
    (hgap : gapNat cols ≤ B) :
    gapNat (evenStep cols) ≤ B := by
  rcases hr : getColumnHeightsRes cols with _ | r
  · simpa [evenStep, hr] using hgap
  have hne : cols ≠ [] := by
    intro he
    rw [he] at hr
    simp [getColumnHeightsRes] at hr
  obtain ⟨r', hr', p1, p2, p3, p4, p5, p6, p7, p8, p9, p10⟩ := colHeights_spec cols hne
  rw [hr] at hr'
  obtain rfl : r = r' := Option.some.inj hr'
  rcases hl : (colAt cols r.highestCol).getLast? with _ | it
  · simpa [evenStep, hr, hl] using hgap
  -- abbreviations for the move
  have hHcol : colHeight (colAt cols r.highestCol) = r.highestValue := by
    rw [colAt, ← getD_map_colHeight]
    exact p8
  have hScol : colHeight (colAt cols r.shortestCol) = r.shortestValue := by
    rw [colAt, ← getD_map_colHeight]
    exact p3
  have hdrop := dropLast_append_getLast_of_getLast? _ it hl
  have hsum := colHeight_append_one ((colAt cols r.highestCol).dropLast) it
  rw [hdrop, hHcol] at hsum
  -- hsum : r.highestValue = colHeight dl + it.height
  have hitmem : it ∈ cols.flatten := by
    refine colAt_mem_flatten (show it ∈ colAt cols r.highestCol from ?_)
    rw [← hdrop]
    exact List.mem_append_right _ (by simp)
  have h2x : 2 * it.height ≤ B := hB it hitmem
  have hSH : r.shortestValue ≤ r.highestValue := by
    have := p4 (r.highestCol - 1) (by omega)
    rwa [p8] at this
  have hgapHS : r.highestValue - r.shortestValue ≤ B := by
    have hg : gapNat cols =
        (((r.highestValue : Int) - (r.shortestValue : Int))).natAbs := by
      simp [gapNat, hr]
    omega
  have hmemub : ∀ v ∈ cols.map colHeight, v ≤ r.highestValue := by
    refine forall_getD_to_mem ?_
    intro k hk
    exact p9 k (by simpa using hk)
  have hmemlb : ∀ v ∈ cols.map colHeight, r.shortestValue ≤ v := by
    refine forall_getD_to_mem ?_
    intro k hk
    exact p4 k (by simpa using hk)
  have hpa : r.highestCol - 1 < cols.length := by omega
  have hpb : r.shortestCol - 1 < cols.length := by omega
  -- the new grid
  rw [evenStep_eq_of_move cols r it hr hl]
  set dl := (colAt cols r.highestCol).dropLast with hdl
  set cols₁ := cols.set (r.highestCol - 1) dl with hcols₁
  set newShort := colAt cols₁ r.shortestCol ++ [it] with hnewShort
  set cols₂ := cols₁.set (r.shortestCol - 1) newShort with hcols₂
  have hlen₂ : cols₂.length = cols.length := by
    simp [hcols₂, hcols₁]
  have hne₂ : cols₂ ≠ [] := by
    intro he
    rw [he] at hlen₂
    simp at hlen₂
    exact hne (List.length_eq_zero.mp hlen₂.symm)
  -- height of the column the item moves to
  have hnewShortHeight :
      colHeight newShort = colHeight (colAt cols₁ r.shortestCol) + it.height :=
    colHeight_append_one _ _
  have hcolAt₁ : colHeight (colAt cols₁ r.shortestCol) = r.shortestValue ∨
      (r.shortestCol = r.highestCol ∧
        colHeight (colAt cols₁ r.shortestCol) = colHeight dl) := by
    by_cases hab : r.shortestCol = r.highestCol
    · refine Or.inr ⟨hab, ?_⟩
      rw [hab]
      unfold colAt
      rw [hcols₁, getD_set_self _ _ _ _ hpa]
    · refine Or.inl ?_
      have hne' : r.highestCol - 1 ≠ r.shortestCol - 1 := by omega
      unfold colAt
      rw [hcols₁, getD_set_ne _ _ _ _ _ hne']
      rw [← colAt, hScol]
  -- every height of the new grid is bounded
  have hub : ∀ v ∈ cols₂.map colHeight,
      v ≤ r.highestValue ∨ v ≤ r.shortestValue + it.height := by
    intro v hv
    obtain ⟨c', hc', rfl⟩ := List.mem_map.mp hv
    rw [hcols₂] at hc'
    rcases List.mem_or_eq_of_mem_set hc' with hc1 | rfl
    · rw [hcols₁] at hc1
      rcases List.mem_or_eq_of_mem_set hc1 with hc2 | rfl
      · exact Or.inl (hmemub _ (List.mem_map_of_mem _ hc2))
      · exact Or.inl (by omega)
    · rw [hnewShortHeight]
      rcases hcolAt₁ with hS | ⟨hab, hD⟩
      · exact Or.inr (by omega)
      · exact Or.inl (by omega)
  have hlb : ∀ v ∈ cols₂.map colHeight,
      r.shortestValue ≤ v ∨ r.highestValue - it.height ≤ v := by
    intro v hv
    obtain ⟨c', hc', rfl⟩ := List.mem_map.mp hv
    rw [hcols₂] at hc'
    rcases List.mem_or_eq_of_mem_set hc' with hc1 | rfl
    · rw [hcols₁] at hc1
      rcases List.mem_or_eq_of_mem_set hc1 with hc2 | rfl
      · exact Or.inl (hmemlb _ (List.mem_map_of_mem _ hc2))
      · exact Or.inr (by omega)
    · rw [hnewShortHeight]
      rcases hcolAt₁ with hS | ⟨hab, hD⟩
      · exact Or.inl (by omega)
      · exact Or.inl (by omega)
  -- extremal heights of the new grid
  obtain ⟨r₂, hr₂, q1, q2, q3, q4, q5, q6, q7, q8, q9, q10⟩ :=
    colHeights_spec cols₂ hne₂
  have hlenm₂ : (cols₂.map colHeight).length = cols₂.length := by simp
  have hsvmem : r₂.shortestValue ∈ cols₂.map colHeight := by
    rw [← q3]
    exact getD_mem 0 (by omega)
  have hhvmem : r₂.highestValue ∈ cols₂.map colHeight := by
    rw [← q8]
    exact getD_mem 0 (by omega)
  have hsh₂ : r₂.shortestValue ≤ r₂.highestValue := by
    have := q4 (r₂.highestCol - 1) (by omega)
    rwa [q8] at this
  have hub₂ := hub _ hhvmem
  have hlb₂ := hlb _ hsvmem
  have hgap₂ : gapNat cols₂ =
      (((r₂.highestValue : Int) - (r₂.shortestValue : Int))).natAbs := by
    simp [gapNat, hr₂]
  rcases hub₂ with hu | hu <;> rcases hlb₂ with hb' | hb' <;> omega

theorem evenLoop_gap_le :
    ∀ (n : Nat) (cols : List (List Item)) (B : Nat),
      (∀ it ∈ cols.flatten, 2 * it.height ≤ B) → gapNat cols ≤ B →
      gapNat (evenLoop n cols) ≤ B
  | 0, _, _, _, hg => hg
  | n + 1, cols, B, hB, hg =>
    evenLoop_gap_le n (evenStep cols) B
      (fun it hit => hB it (evenStep_subset cols hit))
      (evenStep_gap_le cols B hB hg)

/-! ### Claim C7: the balancer and the height gap -/

/-- C7 counterexample: columns with item heights `[100, 1000]` and `[500]`
(gap 600, three items) make `evenBottom` run its move loop and move the
height-1000 item onto the shortest column, growing the gap from 600 to
1400 — the balancer can worsen imbalance. -/
theorem evenBottom_worsens_counterexample :
    2 ≤ totalItems ([[⟨1, 0, 100⟩, ⟨2, 1, 1000⟩], [⟨3, 2, 500⟩]] : List (List Item)) ∧
    500 < gapNat ([[⟨1, 0, 100⟩, ⟨2, 1, 1000⟩], [⟨3, 2, 500⟩]] : List (List Item)) ∧
    gapNat ([[⟨1, 0, 100⟩, ⟨2, 1, 1000⟩], [⟨3, 2, 500⟩]] : List (List Item)) <
      gapNat (evenBottom
        ⟨[[⟨1, 0, 100⟩, ⟨2, 1, 1000⟩], [⟨3, 2, 500⟩]], 2, ⟨2, none, 3⟩⟩).cols := by
  decide

/-- C7 amended: for every grid state, if every item's height is at most half
the current gap between the highest and shortest column heights, then the
gap after `evenBottom` is at most the gap before (in particular the
balancer then never worsens imbalance, though it need not reach the global
minimum); without that height bound the gap can grow, as the counterexample
shows. -/
theorem evenBottom_gap_le (s : LaceState)
    (hB : ∀ it ∈ s.cols.flatten, 2 * it.height ≤ gapNat s.cols) :
    gapNat (evenBottom s).cols ≤ gapNat s.cols := by
  by_cases h0 : totalItems s.cols = 0
  · rw [evenBottom_of_no_items s h0]
  · rcases hr : getColumnHeightsRes s.cols with _ | r
    · simp [evenBottom, h0, hr]
    · by_cases h5 : (((r.highestValue : Int) - (r.shortestValue : Int))).natAbs ≤ 500
      · simp [evenBottom, h0, hr, h5]
      · by_cases h1 : totalItems s.cols = 1
        · simp [evenBottom, h0, hr, h5, h1]
        · have heq : (evenBottom s).cols =
              evenLoop ((s.cache.cols + 1) / 2) s.cols := by
            simp [evenBottom, h0, hr, h5, h1]
          rw [heq]
          exact evenLoop_gap_le _ s.cols _ hB le_rfl

/-- Witness for C7 amended: heights `[300, 300]` against an empty column
(gap 600); each item is at most half the gap, and balancing drops the gap
to 0 ≤ 600. -/
theorem evenBottom_gap_le_w :
    gapNat (evenBottom ⟨[[⟨1, 0, 300⟩, ⟨2, 1, 300⟩], []], 2, ⟨2, none, 2⟩⟩).cols ≤
      gapNat ([[⟨1, 0, 300⟩, ⟨2, 1, 300⟩], []] : List (List Item)) :=
  evenBottom_gap_le ⟨[[⟨1, 0, 300⟩, ⟨2, 1, 300⟩], []], 2, ⟨2, none, 2⟩⟩ (by decide)

/-! ### Sorting and renumbering lemmas -/

theorem map_sortIndex_renumber :
    ∀ (a : Nat) (l : List Item),
      (renumber a l).map Item.sortIndex = List.range' a l.length
  | _, [] => rfl
  | a, it :: rest => by
    simp [renumber, List.range'_succ, map_sortIndex_renumber (a + 1) rest]

theorem mem_renumber_ge :
    ∀ (a : Nat) (l : List Item) (y : Item), y ∈ renumber a l → a ≤ y.sortIndex
  | a, [], y, hy => by simp [renumber] at hy
  | a, it :: rest, y, hy => by
    rcases List.mem_cons.mp hy with rfl | h2
    · simp
    · have := mem_renumber_ge (a + 1) rest y h2
      omega

theorem renumber_sorted_lt :
    ∀ (a : Nat) (l : List Item), List.Sorted itemLt (renumber a l)
  | _, [] => List.sorted_nil
  | a, it :: rest => by
    rw [renumber]
    refine List.sorted_cons.mpr ⟨?_, renumber_sorted_lt (a + 1) rest⟩
    intro y hy
    have := mem_renumber_ge (a + 1) rest y hy
    show a < y.sortIndex
    omega

theorem sortItems_perm (l : List Item) : (sortItemsByIndex l).Perm l :=
  List.perm_insertionSort itemLe l

theorem sortItems_sorted_le (l : List Item) :
    List.Sorted itemLe (sortItemsByIndex l) :=
  List.sorted_insertionSort itemLe l

theorem sorted_lt_of_le_nodup :
    ∀ (l : List Item), List.Sorted itemLe l →
      (l.map Item.sortIndex).Nodup → List.Sorted itemLt l
  | [], _, _ => List.sorted_nil
  | x :: rest, hs, hn => by
    obtain ⟨h1, h2⟩ := List.sorted_cons.mp hs
    simp only [List.map_cons, List.nodup_cons] at hn
    refine List.sorted_cons.mpr ⟨?_, sorted_lt_of_le_nodup rest h2 hn.2⟩
    intro y hy
    have hle : x.sortIndex ≤ y.sortIndex := h1 y hy
    have hne : x.sortIndex ≠ y.sortIndex := by
      intro heq
      have hmem : y.sortIndex ∈ rest.map Item.sortIndex :=
        List.mem_map_of_mem _ hy
      rw [← heq] at hmem
      exact hn.1 hmem
    show x.sortIndex < y.sortIndex
    omega

/-! ### What `_moveItemsIntoCols` does to the item multiset -/

theorem moveItemsAux_flatten_perm :
    ∀ (b : List Item) (s : LaceState) (i : Nat), 1 ≤ s.settingsCols →
      s.cols.length = s.settingsCols →
      ((moveItemsAux s i b).1.cols.flatten).Perm
        (s.cols.flatten ++ renumber s.cache.itemIndex b)
  | [], s, i, _, _ => by simp [moveItemsAux, renumber]
  | it :: rest, s, i, h1, h2 => by
    simp only [moveItemsAux]
    have htr := targetCol_range s i h1
    have hstep : ((placeItem s i it).cols.flatten).Perm
        (s.cols.flatten ++ [{ it with sortIndex := s.cache.itemIndex }]) := by
      unfold placeItem
      exact appendToCol_flatten_perm s.cols (targetCol s i) _ htr.1 (by omega)
    have ih := moveItemsAux_flatten_perm rest (placeItem s i it) (i + 1)
      (by rwa [placeItem_settingsCols])
      (by rw [placeItem_colsLength, placeItem_settingsCols]; exact h2)
    rw [placeItem_itemIndex] at ih
    refine ih.trans ?_
    have hmid := hstep.append_right (renumber (s.cache.itemIndex + 1) rest)
    refine hmid.trans ?_
    rw [List.append_assoc]
    exact List.Perm.refl _

theorem moveItemsAux_renumber :
    ∀ (b : List Item) (s : LaceState) (i : Nat),
      moveItemsAux s i (renumber s.cache.itemIndex b) = moveItemsAux s i b
  | [], _, _ => rfl
  | it :: rest, s, i => by
    simp only [renumber, moveItemsAux]
    have hplace : placeItem s i { it with sortIndex := s.cache.itemIndex } =
        placeItem s i it := rfl
    rw [hplace]
    have ih := moveItemsAux_renumber rest (placeItem s i it) (i + 1)
    rw [placeItem_itemIndex] at ih
    rw [ih]

/-- Helper: a relayout redistributes exactly the renumbered sorted items —
the item multiset after `_reLayout` is the original item multiset sorted by
`data-sort-index` and renumbered `0, 1, 2, ...` in that order. -/
theorem reLayout_flatten_perm (s : LaceState) (h : 1 ≤ s.settingsCols) :
    ((reLayout s).cols.flatten).Perm
      (renumber 0 (sortItemsByIndex s.cols.flatten)) := by
  show ((moveItemsAux (LaceState.mk (List.replicate s.settingsCols [])
      s.settingsCols (Cache.mk s.cache.cols none 0)) 0
      (sortItemsByIndex s.cols.flatten)).1.cols.flatten).Perm _
  have hp := moveItemsAux_flatten_perm (sortItemsByIndex s.cols.flatten)
    (LaceState.mk (List.replicate s.settingsCols []) s.settingsCols
      (Cache.mk s.cache.cols none 0)) 0 h (by simp)
  rw [flatten_replicate_nil] at hp
  simpa using hp

/-! ### Claim C3: relayout and sortIndex values -/

/-- C3 counterexample: a grid whose single column holds items with
sortIndexes `[0, 2]` (as left after a removal); after `_reLayout` the item
that had sortIndex 2 carries sortIndex 1 — relayout DOES reallocate
sortIndex values (`_moveItemsIntoCols` re-stamps `data-sort-index` from the
reset `cache.itemIndex`). -/
theorem reLayout_reallocates_counterexample :
    ((([[⟨10, 0, 5⟩, ⟨11, 2, 5⟩]] : List (List Item)).flatten).map
        (fun it => (it.id, it.sortIndex))) = [(10, 0), (11, 2)] ∧
    (((reLayout ⟨[[⟨10, 0, 5⟩, ⟨11, 2, 5⟩]], 1, ⟨1, some 1, 3⟩⟩).cols.flatten).map
        (fun it => (it.id, it.sortIndex))) = [(10, 0), (11, 1)] := by
  decide

/-- C3 amended: extraction itself is a pure detach, but the re-placement
step of `_reLayout` reallocates: after a relayout the items are exactly the
previous items sorted by their old `sortIndex` and renumbered `0..n-1` in
that order (so relative order is preserved, but an item's `sortIndex` is
only unchanged when the old indices already were `0..n-1`). -/
theorem reLayout_renumbers (s : LaceState) (h : 1 ≤ s.settingsCols) :
    ((reLayout s).cols.flatten).Perm
      (renumber 0 (sortItemsByIndex s.cols.flatten)) :=
  reLayout_flatten_perm s h

/-- Witness for C3 amended on a one-column grid with indices `[0, 7]`. -/
theorem reLayout_renumbers_w :
    ((reLayout ⟨[[⟨10, 0, 5⟩, ⟨11, 7, 5⟩]], 2, ⟨2, some 1, 9⟩⟩).cols.flatten).Perm
      (renumber 0 (sortItemsByIndex
        ([[⟨10, 0, 5⟩, ⟨11, 7, 5⟩]] : List (List Item)).flatten)) :=
  reLayout_renumbers ⟨[[⟨10, 0, 5⟩, ⟨11, 7, 5⟩]], 2, ⟨2, some 1, 9⟩⟩ (by decide)

/-! ### Claim C2: relayout idempotence -/

/-- C2: relayout is idempotent — for every grid state (with at least one
column configured), running `_reLayout` twice consecutively with the same
item set and unchanged `settings.cols` produces exactly the same state,
and in particular the same column-to-item assignment, as running it once. -/
theorem reLayout_idempotent (s : LaceState) (h : 1 ≤ s.settingsCols) :
    reLayout (reLayout s) = reLayout s := by
  have hsc : (reLayout s).settingsCols = s.settingsCols :=
    moveItemsAux_settingsCols _ _ _
  have hcc : (reLayout s).cache.cols = s.cache.cols :=
    moveItemsAux_cacheCols _ _ _
  have hperm := reLayout_flatten_perm s h
  have hsortedb : List.Sorted itemLt (renumber 0 (sortItemsByIndex s.cols.flatten)) :=
    renumber_sorted_lt 0 _
  have hnodupb :
      ((renumber 0 (sortItemsByIndex s.cols.flatten)).map Item.sortIndex).Nodup := by
    rw [map_sortIndex_renumber]
    exact List.nodup_range' _ _
  have hpermsort : (sortItemsByIndex (reLayout s).cols.flatten).Perm
      (renumber 0 (sortItemsByIndex s.cols.flatten)) :=
    (sortItems_perm _).trans hperm
  have hnodupsort :
      ((sortItemsByIndex (reLayout s).cols.flatten).map Item.sortIndex).Nodup :=
    (List.Perm.nodup_iff (hpermsort.map Item.sortIndex)).mpr hnodupb
  have hsorteq : sortItemsByIndex (reLayout s).cols.flatten =
      renumber 0 (sortItemsByIndex s.cols.flatten) :=
    List.eq_of_perm_of_sorted hpermsort
      (sorted_lt_of_le_nodup _ (sortItems_sorted_le _) hnodupsort) hsortedb
  have houter : reLayout (reLayout s) =
      (moveItemsAux (LaceState.mk (List.replicate s.settingsCols [])
          s.settingsCols (Cache.mk s.cache.cols none 0)) 0
        (sortItemsByIndex (reLayout s).cols.flatten)).1 := by
    show (moveItemsAux (LaceState.mk (List.replicate (reLayout s).settingsCols [])
        (reLayout s).settingsCols (Cache.mk (reLayout s).cache.cols none 0)) 0
      (sortItemsByIndex (reLayout s).cols.flatten)).1 = _
    rw [hsc, hcc]
  rw [houter, hsorteq]
  exact congrArg Prod.fst (moveItemsAux_renumber (sortItemsByIndex s.cols.flatten)
    (LaceState.mk (List.replicate s.settingsCols []) s.settingsCols
      (Cache.mk s.cache.cols none 0)) 0)

/-- Witness for C2 on a grid with stray columns, duplicate indices and a
column count smaller than the number of physical columns. -/
theorem reLayout_idempotent_w :
    reLayout (reLayout ⟨[[⟨1, 7, 5⟩], [⟨2, 3, 9⟩, ⟨3, 3, 2⟩], [], [⟨4, 0, 1⟩]],
        2, ⟨2, some 2, 9⟩⟩) =
      reLayout ⟨[[⟨1, 7, 5⟩], [⟨2, 3, 9⟩, ⟨3, 3, 2⟩], [], [⟨4, 0, 1⟩]],
        2, ⟨2, some 2, 9⟩⟩ :=
  reLayout_idempotent
    ⟨[[⟨1, 7, 5⟩], [⟨2, 3, 9⟩, ⟨3, 3, 2⟩], [], [⟨4, 0, 1⟩]], 2, ⟨2, some 2, 9⟩⟩
    (by decide)

/-- Witness for C9 amended: `selector` missing, `colWidth` provided as 200,
`colPadding` missing. -/
theorem laceInit_amended_w :
    ("Missing \"selector\" param" ∈ (laceInit ⟨none, some 200, none⟩).1 ↔
      (mergeOptions ⟨none, some 200, none⟩).selector = none) ∧
    ("Missing \"colWidth\" param" ∈ (laceInit ⟨none, some 200, none⟩).1 ↔
      (mergeOptions ⟨none, some 200, none⟩).colWidth = 0) ∧
    "Missing \"colPadding\" param" ∉ (laceInit ⟨none, some 200, none⟩).1 ∧
    "Missing \"colPadding\" param" ∈
      (laceInit { (⟨none, some 200, none⟩ : LaceOptions) with
        colPadding := some none }).1 ∧
    (laceInit ⟨none, some 200, none⟩).2 = mergeOptions ⟨none, some 200, none⟩ :=
  laceInit_amended ⟨none, some 200, none⟩ rfl
